import Mathlib

/-!
# Verification of the bitboard chess core (attack tables and FEN decoding)

Shallow embedding of the Rust sources under `src/`:

* `src/board/mod.rs`   — bitboard constants and enums,
* `src/tables/bitscan.rs` — least/most significant set-bit scans,
* `src/tables/sliding.rs` — first-rank sliding-attack table generation,
* `src/tables/king.rs`, `src/tables/knight.rs`, `src/tables/pawn.rs`
  — leaper attack table generation,
* `src/board/fen.rs`   — FEN decoding.

Machine integers are embedded as `Nat` with explicit `% 2 ^ 64` (resp.
`% 256`) wherever the Rust code can wrap or shift bits out of the word.
Fallible Rust functions returning `Result` are embedded as `Except`;
a Rust `.unwrap()` on a sub-parser result inside `parse_fen` is embedded
by the dedicated `FenOutcome.panicked` constructor, since it aborts
instead of returning the error to the caller.
-/

set_option maxRecDepth 100000

namespace Chess

/-! ## Bitboard constants and enums (`src/board/mod.rs`) -/

/-- The `RANK_MASKS` from `board/mod.rs`: bitmask of each rank. -/
def RANK_MASKS : List Nat :=
  [0x00000000000000FF,
   0x000000000000FF00,
   0x0000000000FF0000,
   0x00000000FF000000,
   0x000000FF00000000,
   0x0000FF0000000000,
   0x00FF000000000000,
   0xFF00000000000000]

/-- The `FILE_MASKS` from `board/mod.rs`: bitmask of each file. -/
def FILE_MASKS : List Nat :=
  [0x0101010101010101,
   0x0202020202020202,
   0x0404040404040404,
   0x0808080808080808,
   0x1010101010101010,
   0x2020202020202020,
   0x4040404040404040,
   0x8080808080808080]

/-- The `Rank` enum from `board/mod.rs`. -/
inductive Rank
  | One | Two | Three | Four | Five | Six | Seven | Eight
deriving DecidableEq

/-- The `Rank as usize`. -/
def Rank.idx : Rank → Nat
  | .One => 0 | .Two => 1 | .Three => 2 | .Four => 3
  | .Five => 4 | .Six => 5 | .Seven => 6 | .Eight => 7

/-- The `File` enum from `board/mod.rs`. -/
inductive File
  | A | B | C | D | E | F | G | H
deriving DecidableEq

/-- The `File as usize`. -/
def File.idx : File → Nat
  | .A => 0 | .B => 1 | .C => 2 | .D => 3
  | .E => 4 | .F => 5 | .G => 6 | .H => 7

/-- The `RANK_MASKS[r as usize]`. -/
def rankMask (r : Rank) : Nat := RANK_MASKS.getD r.idx 0

/-- The `FILE_MASKS[f as usize]`. -/
def fileMask (f : File) : Nat := FILE_MASKS.getD f.idx 0

/-- The `Color` enum from `board/mod.rs`. -/
inductive Color
  | White | Black
deriving DecidableEq

/-- The `Color as usize`. -/
def Color.idx : Color → Nat
  | .White => 0
  | .Black => 1

/-- The `Piece` enum from `board/mod.rs`. -/
inductive Piece
  | Pawn | Knight | Bishop | Rook | Queen | King
deriving DecidableEq

/-- The `CastleRights` enum from `board/mod.rs`. -/
inductive CastleRights
  | None | Kingside | Queenside | Both
deriving DecidableEq

/-! ## Bitscan (`src/tables/bitscan.rs`) -/

/-- The `BitscanError` from `bitscan.rs`.  Its only variant is
`InvalidInteger { integer: u64 }`. -/
inductive BitscanError
  | InvalidInteger : Nat → BitscanError
deriving DecidableEq

/-- Fuel-driven count of trailing zero bits (`u64::trailing_zeros`):
counts factors of two, returning the fuel bound (64) for input 0. -/
def tzGo : Nat → Nat → Nat
  | 0, _ => 0
  | fuel + 1, n => if n % 2 = 1 then 0 else 1 + tzGo fuel (n / 2)

/-- The `u64::trailing_zeros` for values `< 2 ^ 64`. -/
def trailing_zeros (i : Nat) : Nat := tzGo 64 i

/-- Fuel-driven bit length (position of the most significant set bit
plus one; 0 for input 0). -/
def blGo : Nat → Nat → Nat
  | 0, _ => 0
  | fuel + 1, n => if n = 0 then 0 else 1 + blGo fuel (n / 2)

/-- The `u64::leading_zeros` for values `< 2 ^ 64`: 64 minus the bit length. -/
def leading_zeros (i : Nat) : Nat := 64 - blGo 64 i

/-- The `bitscan_forward` from `bitscan.rs`: index of the least significant
set bit, or `InvalidInteger` on 0. -/
def bitscan_forward (i : Nat) : Except BitscanError Nat :=
  if i ≠ 0 then Except.ok (trailing_zeros i)
  else Except.error (BitscanError.InvalidInteger i)

/-- The `bitscan_reverse` from `bitscan.rs`: index of the most significant
set bit (`63 - leading_zeros`), or `InvalidInteger` on 0. -/
def bitscan_reverse (i : Nat) : Except BitscanError Nat :=
  if i ≠ 0 then Except.ok (63 - leading_zeros i)
  else Except.error (BitscanError.InvalidInteger i)

/-! ## Sliding first-rank table (`src/tables/sliding.rs`) -/

/-- Bitwise complement on 8-bit values (`!x` for `u8`). -/
def not8 (x : Nat) : Nat := x ^^^ 255

/-- The `left_ray` closure from `compute_first_rank_moves`: `x - 1`. -/
def left_ray (x : Nat) : Nat := x - 1

/-- The `right_ray` closure from `compute_first_rank_moves`: `!x & !(x - 1)`. -/
def right_ray (x : Nat) : Nat := not8 x &&& not8 (x - 1)

/-- The `compute_first_rank_moves` from `sliding.rs`.  The Rust function
unwraps the two bitscan results; the embedding propagates the bitscan
error through `Except` so that unreachability of the unwrap panic is a
provable statement. -/
def compute_first_rank_moves (square occupancy : Nat) : Except BitscanError Nat := do
  let left_attacks := left_ray (1 <<< square)
  let left_blockers := left_attacks &&& occupancy
  let left_attacks ←
    if left_blockers > 0 then do
      let k ← bitscan_reverse left_blockers
      pure (left_attacks ^^^ left_ray (1 <<< k))
    else pure left_attacks
  let right_attacks := right_ray (1 <<< square)
  let right_blockers := right_attacks &&& occupancy
  let right_attacks ←
    if right_blockers > 0 then do
      let k ← bitscan_forward right_blockers
      pure (right_attacks ^^^ right_ray (1 <<< k))
    else pure right_attacks
  pure (left_attacks ^^^ right_attacks)

/-! ## Spec-side definitions for the sliding table -/

/-- The 8-bit mask whose set bits are exactly positions `lo..hi`
(inclusive); empty when `lo > hi`. -/
def bitsBetween (lo hi : Nat) : Nat := 2 ^ (hi + 1) - 2 ^ lo

/-- Index of the least significant set bit of an 8-bit value
(8 when none). -/
def lowestSetBit8 (b : Nat) : Nat :=
  ((List.range 8).find? (fun k => b.testBit k)).getD 8

/-- Index of the most significant set bit of an 8-bit value
(8 when none). -/
def highestSetBit8 (b : Nat) : Nat :=
  ((List.range 8).filter (fun k => b.testBit k)).getLastD 8

/-- Spec: the "below" ray of line position `p`, truncated to stop at
(and include) the nearest set bit of `o` below `p` when one exists. -/
def truncatedBelowRay (p o : Nat) : Nat :=
  let blockers := o &&& (2 ^ p - 1)
  if blockers = 0 then 2 ^ p - 1
  else bitsBetween (highestSetBit8 blockers) (p - 1)

/-- Spec: the "above" ray of line position `p`, truncated to stop at
(and include) the nearest set bit of `o` above `p` when one exists. -/
def truncatedAboveRay (p o : Nat) : Nat :=
  let blockers := o &&& (255 ^^^ (2 ^ (p + 1) - 1))
  if blockers = 0 then 255 ^^^ (2 ^ (p + 1) - 1)
  else bitsBetween (p + 1) (lowestSetBit8 blockers)

/-- True iff an `Except` value is `ok`. -/
def exceptIsOk {ε α : Type} : Except ε α → Bool
  | Except.ok _ => true
  | Except.error _ => false

instance instDecEqExcept {ε α : Type} [DecidableEq ε] [DecidableEq α] :
    DecidableEq (Except ε α)
  | Except.ok a, Except.ok b =>
    if h : a = b then isTrue (by rw [h])
    else isFalse (by intro hc; cases hc; exact h rfl)
  | Except.ok _, Except.error _ => isFalse (by intro hc; cases hc)
  | Except.error _, Except.ok _ => isFalse (by intro hc; cases hc)
  | Except.error a, Except.error b =>
    if h : a = b then isTrue (by rw [h])
    else isFalse (by intro hc; cases hc; exact h rfl)

/-! ## Leaper tables (`src/tables/king.rs`, `knight.rs`, `pawn.rs`) -/

/-- Bitwise complement on 64-bit values (`!m` for `u64`). -/
def not64 (x : Nat) : Nat := x ^^^ (2 ^ 64 - 1)

/-- The `compute_king_moves` from `king.rs`.  Left shifts are reduced
`% 2 ^ 64` because `u64` shifts discard bits past bit 63. -/
def compute_king_moves (square : Nat) : Nat :=
  let bb := (1 <<< square) % 2 ^ 64
  let n := (bb <<< 8) % 2 ^ 64
  let s := bb >>> 8
  let nw := ((bb &&& fileMask File.A) <<< 7) % 2 ^ 64
  let w := (bb &&& fileMask File.A) >>> 1
  let sw := (bb &&& fileMask File.A) >>> 9
  let ne := ((bb &&& fileMask File.H) <<< 9) % 2 ^ 64
  let e := ((bb &&& fileMask File.H) <<< 1) % 2 ^ 64
  let se := (bb &&& fileMask File.H) >>> 7
  n ||| s ||| nw ||| w ||| sw ||| ne ||| e ||| se

/-- The `compute_knight_moves` from `knight.rs`. -/
def compute_knight_moves (square : Nat) : Nat :=
  let bb := (1 <<< square) % 2 ^ 64
  let s1 := ((bb &&& not64 (fileMask File.A)) <<< 15) % 2 ^ 64
  let s2 := (bb &&& not64 (fileMask File.A)) >>> 17
  let s3 := ((bb &&& not64 (fileMask File.A ||| fileMask File.B)) <<< 6) % 2 ^ 64
  let s4 := (bb &&& not64 (fileMask File.A ||| fileMask File.B)) >>> 10
  let s5 := ((bb &&& not64 (fileMask File.H)) <<< 17) % 2 ^ 64
  let s6 := (bb &&& not64 (fileMask File.H)) >>> 15
  let s7 := ((bb &&& not64 (fileMask File.H ||| fileMask File.G)) <<< 10) % 2 ^ 64
  let s8 := (bb &&& not64 (fileMask File.H ||| fileMask File.G)) >>> 6
  s1 ||| s2 ||| s3 ||| s4 ||| s5 ||| s6 ||| s7 ||| s8

/-- The `compute_pawn_quiet_moves` from `pawn.rs`. -/
def compute_pawn_quiet_moves (square : Nat) (color : Color) : Nat :=
  let bb := (1 <<< square) % 2 ^ 64
  if color = Color.White then
    let s1 := (bb <<< 8) % 2 ^ 64
    let s2 := ((bb &&& rankMask Rank.Two) <<< 16) % 2 ^ 64
    s1 ||| s2
  else
    let s1 := bb >>> 8
    let s2 := (bb &&& rankMask Rank.Seven) >>> 16
    s1 ||| s2

/-- The `compute_pawn_attacking_moves` from `pawn.rs`. -/
def compute_pawn_attacking_moves (square : Nat) (color : Color) : Nat :=
  let bb := (1 <<< square) % 2 ^ 64
  if color = Color.White then
    let s1 := ((bb &&& not64 (fileMask File.A)) <<< 7) % 2 ^ 64
    let s2 := ((bb &&& not64 (fileMask File.H)) <<< 9) % 2 ^ 64
    s1 ||| s2
  else
    let s1 := (bb &&& not64 (fileMask File.A)) >>> 9
    let s2 := (bb &&& not64 (fileMask File.H)) >>> 7
    s1 ||| s2

/-! ## Spec-side definitions for the leaper tables -/

/-- Population count of a 64-bit value, by fuel-driven binary recursion. -/
def popGo : Nat → Nat → Nat
  | 0, _ => 0
  | fuel + 1, n => if n = 0 then 0 else n % 2 + popGo fuel (n / 2)

/-- Population count (number of set bits) of a value `< 2 ^ 64`. -/
def popcount (n : Nat) : Nat := popGo 64 n

/-- Spec: pawn quiet moves — the single forward push (zero when it
would leave the board) plus the double push exactly from the color's
own starting rank (rank 2 for White, rank 7 for Black). -/
def pawnQuietSpec (color : Color) (s : Nat) : Nat :=
  match color with
  | Color.White =>
    (if s + 8 < 64 then 2 ^ (s + 8) else 0) |||
    (if s / 8 = 1 then 2 ^ (s + 16) else 0)
  | Color.Black =>
    (if s ≥ 8 then 2 ^ (s - 8) else 0) |||
    (if s / 8 = 6 then 2 ^ (s - 16) else 0)

/-- Spec: pawn capture moves — exactly the forward-diagonal squares,
with wraparound across the A/H file edges suppressed. -/
def pawnCaptureSpec (color : Color) (s : Nat) : Nat :=
  let f := s % 8
  match color with
  | Color.White =>
    (if f ≠ 0 ∧ s + 7 < 64 then 2 ^ (s + 7) else 0) |||
    (if f ≠ 7 ∧ s + 9 < 64 then 2 ^ (s + 9) else 0)
  | Color.Black =>
    (if f ≠ 0 ∧ s ≥ 9 then 2 ^ (s - 9) else 0) |||
    (if f ≠ 7 ∧ s ≥ 7 then 2 ^ (s - 7) else 0)

/-! ## FEN decoding (`src/board/fen.rs`)

Strings are embedded as `List Char`.  The embedding of the character
classification functions (`is_alphabetic`, `is_uppercase`,
`is_whitespace`) uses Lean's ASCII versions; every character class the
parser distinguishes (the 12 piece letters, ASCII digits, `/`, spaces)
is ASCII, where the two agree. -/

/-- The `FenError` from `fen.rs`, with each variant's payload. -/
inductive FenError
  | InvalidFields : Nat → FenError
  | IncorrectRankCount : Nat → FenError
  | UnrecognizedPiece : Char → FenError
  | UnrecognizedSquare : Char → FenError
  | IncorrectSquareCount : Nat → FenError
  | UnrecognizedActiveColor : List Char → FenError
  | UnrecognizedCastlingRights : List Char → FenError
  | InvalidMoveField : List Char → FenError
deriving DecidableEq

/-- The `str::split` on a character predicate: groups between separator
positions, keeping empty groups (as Rust `split` does). -/
def splitOnPred (p : Char → Bool) : List Char → List (List Char)
  | [] => [[]]
  | c :: cs =>
    let r := splitOnPred p cs
    if p c then [] :: r
    else
      match r with
      | [] => [[c]]
      | g :: gs => (c :: g) :: gs

/-- The `str::split_whitespace`: split on whitespace, dropping empty groups. -/
def splitWhitespaceL (cs : List Char) : List (List Char) :=
  (splitOnPred (fun c => c.isWhitespace) cs).filter (fun g => !g.isEmpty)

/-- The `str::contains(&str)`: contiguous-substring test. -/
def isSubstrOf (pat : List Char) : List Char → Bool
  | [] => pat.isEmpty
  | c :: cs => pat.isPrefixOf (c :: cs) || isSubstrOf pat cs

/-- The `match` in `parse_piece_placement` mapping a piece letter to the
`Piece` enum discriminant (`Piece as usize`). -/
def pieceIndex (c : Char) : Option Nat :=
  match c with
  | 'p' | 'P' => some 0
  | 'n' | 'N' => some 1
  | 'b' | 'B' => some 2
  | 'r' | 'R' => some 3
  | 'q' | 'Q' => some 4
  | 'k' | 'K' => some 5
  | _ => none

/-- The `bitboards[color][piece]`. -/
def getBB (bbs : List (List Nat)) (c p : Nat) : Nat := (bbs.getD c []).getD p 0

/-- The `bitboards[color][piece] = v`. -/
def setBB (bbs : List (List Nat)) (c p v : Nat) : List (List Nat) :=
  bbs.set c ((bbs.getD c []).set p v)

/-- The character loop of `parse_piece_placement`: `i` is the running
`u8` square counter (reduced `% 256` as `u8` addition wraps), and the
shift amount is reduced `% 64` as `u64` shifts are; on every input the
parser accepts, `i` stays below 64 at each placement. -/
def placementLoop : List Char → Nat → List (List Nat) →
    Except FenError (Nat × List (List Nat))
  | [], i, bbs => Except.ok (i, bbs)
  | c :: cs, i, bbs =>
    if c.isAlpha then
      let color := if c.isUpper then 0 else 1
      match pieceIndex c with
      | some piece =>
        placementLoop cs ((i + 1) % 256)
          (setBB bbs color piece (getBB bbs color piece ||| (1 <<< (i % 64))))
      | none => Except.error (FenError.UnrecognizedPiece c)
    else if c.isDigit then
      placementLoop cs ((i + (c.toNat - 48)) % 256) bbs
    else
      Except.error (FenError.UnrecognizedSquare c)

/-- The ranks of a piece-placement field, in the reversed (rank-1-first)
order `parse_piece_placement` processes them. -/
def ranksOf (cs : List Char) : List (List Char) :=
  (splitOnPred (fun c => c == '/') cs).reverse

/-- The `parse_piece_placement` from `fen.rs`. -/
def parse_piece_placement (cs : List Char) :
    Except FenError (List (List Nat)) :=
  if (ranksOf cs).length ≠ 8 then
    Except.error (FenError.IncorrectRankCount (ranksOf cs).length)
  else
    match placementLoop (ranksOf cs).flatten 0
        [[0, 0, 0, 0, 0, 0], [0, 0, 0, 0, 0, 0]] with
    | Except.error e => Except.error e
    | Except.ok (i, bbs) =>
      if i = 64 then Except.ok bbs
      else Except.error (FenError.IncorrectSquareCount i)

/-- The `parse_active_color` from `fen.rs`. -/
def parse_active_color (cs : List Char) : Except FenError Color :=
  if cs = ['w'] then Except.ok Color.White
  else if cs = ['b'] then Except.ok Color.Black
  else Except.error (FenError.UnrecognizedActiveColor cs)

/-- The `parse_castling_rights` from `fen.rs`. -/
def parse_castling_rights (cs : List Char) :
    Except FenError (List CastleRights) :=
  if !(cs.all (fun c => (['K', 'Q', 'k', 'q', '-']).contains c)) then
    Except.error (FenError.UnrecognizedCastlingRights cs)
  else if cs = ['-'] then
    Except.ok [CastleRights.None, CastleRights.None]
  else
    let white_castling :=
      if isSubstrOf ['K', 'Q'] cs then CastleRights.Both
      else if cs.contains 'K' then CastleRights.Kingside
      else if cs.contains 'Q' then CastleRights.Queenside
      else CastleRights.None
    let black_castling :=
      if isSubstrOf ['k', 'q'] cs then CastleRights.Both
      else if cs.contains 'k' then CastleRights.Kingside
      else if cs.contains 'q' then CastleRights.Queenside
      else CastleRights.None
    Except.ok [white_castling, black_castling]

/-- The `parse_move_count` from `fen.rs`: `str::parse::<u16>`, i.e. an
optional leading `+`, then one or more ASCII digits, with the value
required to fit in 16 bits. -/
def parse_move_count (cs : List Char) : Except FenError Nat :=
  let digits :=
    match cs with
    | '+' :: rest => rest
    | _ => cs
  if digits ≠ [] ∧ digits.all (fun c => c.isDigit) then
    let v := digits.foldl (fun a c => a * 10 + (c.toNat - 48)) 0
    if v < 65536 then Except.ok v
    else Except.error (FenError.InvalidMoveField cs)
  else Except.error (FenError.InvalidMoveField cs)

/-- Outcome of `parse_fen` from `fen.rs`.  The Rust function returns
`Err` itself only for a bad field count; each sub-field parser's result
is `.unwrap()`ed, which on `Err` panics instead of returning, embedded
here as the `panicked` constructor carrying the sub-parser's error. -/
inductive FenOutcome
  | ok : List (List Nat) → Color → List CastleRights → Nat → Nat → FenOutcome
  | err : FenError → FenOutcome
  | panicked : FenError → FenOutcome
deriving DecidableEq

/-- The `parse_fen` from `fen.rs` (field 3, the en-passant target, is
accepted unparsed, as in the source). -/
def parse_fen (cs : List Char) : FenOutcome :=
  let fields := splitWhitespaceL cs
  if fields.length ≠ 6 then FenOutcome.err (FenError.InvalidFields fields.length)
  else
    match parse_piece_placement (fields.getD 0 []) with
    | Except.error e => FenOutcome.panicked e
    | Except.ok bitboards =>
      match parse_active_color (fields.getD 1 []) with
      | Except.error e => FenOutcome.panicked e
      | Except.ok active_color =>
        match parse_castling_rights (fields.getD 2 []) with
        | Except.error e => FenOutcome.panicked e
        | Except.ok castling_rights =>
          match parse_move_count (fields.getD 4 []) with
          | Except.error e => FenOutcome.panicked e
          | Except.ok halfmoves =>
            match parse_move_count (fields.getD 5 []) with
            | Except.error e => FenOutcome.panicked e
            | Except.ok fullmoves =>
              FenOutcome.ok bitboards active_color castling_rights halfmoves fullmoves

/-- The `FEN_START` from `fen.rs`. -/
def FEN_START : List Char :=
  (r"rnbqkbnr/pppppppp/8/8/8/8/PPPPPPPP/RNBQKBNR w KQkq - 0 1").toList

/-- The piece-placement field of `FEN_START`. -/
def startPlacement : List Char :=
  (r"rnbqkbnr/pppppppp/8/8/8/8/PPPPPPPP/RNBQKBNR").toList

/-- The 12 bitboards of the standard starting position, White pieces
first, in `Piece` order (pawn, knight, bishop, rook, queen, king). -/
def startBBs : List (List Nat) :=
  [[0xFF00, 0x42, 0x24, 0x81, 0x8, 0x10],
   [0xFF000000000000, 0x4200000000000000, 0x2400000000000000,
    0x8100000000000000, 0x800000000000000, 0x1000000000000000]]

/-! ## Concrete malformed FEN inputs (from the repository's test suite) -/

/-- FEN with a single field. -/
def fenOneField : List Char :=
  (r"rnbqkbnr/pppppppp/8/8/8/8/PPPPPPPP/RNBQKBNR").toList

/-- FEN whose placement has 7 ranks. -/
def fenSevenRanks : List Char :=
  (r"rnbqkbnr/pppppppp/8/8/8/PPPPPPPP/RNBQKBNR w KQkq - 0 1").toList

/-- FEN with the unrecognized piece letter `x`. -/
def fenBadPiece : List Char :=
  (r"rnbqkbnr/pppxpppp/8/8/8/8/PPPPPPPP/RNBQKBNR w KQkq - 0 1").toList

/-- FEN with the unrecognized square character `+`. -/
def fenBadSquare : List Char :=
  (r"rnbqkbnr/pppppppp/8/8/8/8/P+PPPPPP/RNBQKBNR w KQkq - 0 1").toList

/-- FEN whose placement (rank `32`, counted as 3 + 2 = 5) totals 61
squares. -/
def fenCount61 : List Char :=
  (r"rnbqkbnr/pppppppp/8/32/8/8/PPPPPPPP/RNBQKBNR w KQkq - 0 1").toList

/-- The placement field of `fenCount61` alone. -/
def placementCount61 : List Char :=
  (r"rnbqkbnr/pppppppp/8/32/8/8/PPPPPPPP/RNBQKBNR").toList

/-- FEN with the unrecognized active color `Y`. -/
def fenBadColor : List Char :=
  (r"rnbqkbnr/pppppppp/8/8/8/8/PPPPPPPP/RNBQKBNR Y KQkq - 0 1").toList

/-- FEN with the unrecognized castling-rights string `Kjkq`. -/
def fenBadCastling : List Char :=
  (r"rnbqkbnr/pppppppp/8/8/8/8/PPPPPPPP/RNBQKBNR w Kjkq - 0 1").toList

/-- FEN with halfmove field `-1`. -/
def fenBadHalfmoves : List Char :=
  (r"rnbqkbnr/pppppppp/8/8/8/8/PPPPPPPP/RNBQKBNR w KQkq - -1 1").toList

/-- FEN with fullmove field `65575`, past the `u16` range. -/
def fenBadFullmoves : List Char :=
  (r"rnbqkbnr/pppppppp/8/8/8/8/PPPPPPPP/RNBQKBNR w KQkq - 0 65575").toList

/-- A placement field whose ranks `7` and `9` each violate the 8-files-
per-rank rule while the total over all ranks is still 64. -/
def placementRank79 : List Char :=
  (r"rnbqkbnr/pppppppp/8/8/8/7/9/PPPPPPPP").toList

/-- A placement field containing the unrecognized letter `x`. -/
def placementBadPiece : List Char :=
  (r"rnbqkbnr/pppxpppp/8/8/8/8/PPPPPPPP/RNBQKBNR").toList

/-! ## Spec-side definitions for FEN claims -/

/-- The number of squares a placement character stands for: 1 for a
letter, its numeric value for a digit. -/
def squareWeight (c : Char) : Nat := if c.isAlpha then 1 else c.toNat - 48

/-- Total square weight of a character list. -/
def totalWeight (cs : List Char) : Nat := (cs.map squareWeight).foldr (· + ·) 0

/-- Bitwise OR of a list of bitboards. -/
def orAll (l : List Nat) : Nat := l.foldr (fun a b => a ||| b) 0

/-- Every pair of distinct bitboards in the list is disjoint. -/
def pairwiseDisjoint : List Nat → Bool
  | [] => true
  | x :: xs => xs.all (fun y => x &&& y == 0) && pairwiseDisjoint xs

/-! ## Helper lemmas: bitscan -/

/-- The function `tzGo` finds the least significant set bit: the bit it returns is
set and everything below it is clear. -/
theorem tzGo_spec : ∀ fuel x, 0 < x → x < 2 ^ fuel →
    x.testBit (tzGo fuel x) = true ∧ ∀ j, j < tzGo fuel x → x.testBit j = false := by
  intro fuel
  induction fuel with
  | zero =>
    intro x h0 h1
    simp only [pow_zero] at h1
    omega
  | succ fuel ih =>
    intro x h0 h1
    by_cases h : x % 2 = 1
    · refine ⟨?_, ?_⟩
      · simp [tzGo, h, Nat.testBit_zero]
      · intro j hj
        simp [tzGo, h] at hj
    · have hx2 : 0 < x / 2 := by omega
      have hx2' : x / 2 < 2 ^ fuel := by
        apply Nat.div_lt_of_lt_mul
        rw [pow_succ] at h1
        omega
      obtain ⟨hbit, hlow⟩ := ih (x / 2) hx2 hx2'
      have htz : tzGo (fuel + 1) x = 1 + tzGo fuel (x / 2) := by
        simp [tzGo, h]
      refine ⟨?_, ?_⟩
      · rw [htz, Nat.add_comm, Nat.testBit_add_one]
        exact hbit
      · intro j hj
        rw [htz] at hj
        match j with
        | 0 => simp [Nat.testBit_zero]; omega
        | j' + 1 =>
          rw [Nat.testBit_add_one]
          exact hlow j' (by omega)

/-- The `blGo` of zero is zero. -/
theorem blGo_zero : ∀ fuel, blGo fuel 0 = 0 := by
  intro fuel
  cases fuel <;> simp [blGo]

/-- With enough fuel, `blGo` computes the bit length `log2 + 1`. -/
theorem blGo_eq_log2 : ∀ fuel x, 0 < x → x < 2 ^ fuel →
    blGo fuel x = Nat.log2 x + 1 := by
  intro fuel
  induction fuel with
  | zero =>
    intro x h0 h1
    simp only [pow_zero] at h1
    omega
  | succ fuel ih =>
    intro x h0 h1
    have hx : ¬ x = 0 := by omega
    rw [blGo, if_neg hx]
    by_cases h2 : x ≥ 2
    · have ha : 0 < x / 2 := by omega
      have hb : x / 2 < 2 ^ fuel := by
        apply Nat.div_lt_of_lt_mul
        rw [pow_succ] at h1
        omega
      rw [ih (x / 2) ha hb]
      conv_rhs => rw [Nat.log2]
      rw [if_pos h2]
      omega
    · have hx1 : x = 1 := by omega
      subst hx1
      norm_num [blGo_zero]
      rw [Nat.log2]
      norm_num

/-- The most significant set bit of a positive number sits at index
`Nat.log2`: that bit is set and everything above it is clear. -/
theorem log2_testBit (x : Nat) (h0 : 0 < x) :
    x.testBit (Nat.log2 x) = true ∧ ∀ j, Nat.log2 x < j → x.testBit j = false := by
  have hx : x ≠ 0 := by omega
  have h1 : 2 ^ Nat.log2 x ≤ x := Nat.log2_self_le hx
  have h2 : x < 2 ^ (Nat.log2 x + 1) := Nat.lt_log2_self
  refine ⟨?_, ?_⟩
  · rw [Nat.testBit_to_div_mod]
    have hpos : 0 < 2 ^ Nat.log2 x := Nat.pos_pow_of_pos _ (by omega)
    have hd1 : 1 ≤ x / 2 ^ Nat.log2 x := (Nat.one_le_div_iff hpos).mpr h1
    have hd2 : x / 2 ^ Nat.log2 x < 2 := by
      apply Nat.div_lt_of_lt_mul
      rw [pow_succ] at h2
      omega
    have : x / 2 ^ Nat.log2 x = 1 := by omega
    simp [this]
  · intro j hj
    apply Nat.testBit_lt_two_pow
    calc x < 2 ^ (Nat.log2 x + 1) := h2
    _ ≤ 2 ^ j := Nat.pow_le_pow_right (by omega) (by omega)

/-- The function `bitscan_reverse` on a positive 64-bit value returns `Nat.log2`. -/
theorem bitscan_reverse_eq_log2 (x : Nat) (h0 : 0 < x) (h64 : x < 2 ^ 64) :
    bitscan_reverse x = Except.ok (Nat.log2 x) := by
  have hx : ¬ x = 0 := by omega
  have hbl : blGo 64 x = Nat.log2 x + 1 := blGo_eq_log2 64 x h0 h64
  have hlog : Nat.log2 x < 64 := (Nat.log2_lt hx).mpr h64
  simp only [bitscan_reverse, ne_eq, hx, not_false_eq_true, if_true,
    leading_zeros, hbl, Except.ok.injEq]
  omega

/-- The function `bitscan_forward` on a positive 64-bit value returns the least
significant set bit index. -/
theorem bitscan_forward_lsb (x : Nat) (h0 : 0 < x) (h64 : x < 2 ^ 64) :
    ∃ k, bitscan_forward x = Except.ok k ∧
      x.testBit k = true ∧ ∀ j, j < k → x.testBit j = false := by
  have hx : ¬ x = 0 := by omega
  refine ⟨trailing_zeros x, ?_, ?_⟩
  · simp [bitscan_forward, hx]
  · exact tzGo_spec 64 x h0 h64

/-! ## Helper lemmas: FEN piece placement -/

/-- When the placement loop succeeds, the final square counter is the
initial counter plus the total square weight of the characters
consumed (as a wrapping `u8`). -/
theorem placementLoop_ok_count : ∀ (cs : List Char) (i : Nat) bbs i' bbs',
    i < 256 → placementLoop cs i bbs = Except.ok (i', bbs') →
    i' = (i + totalWeight cs) % 256 := by
  intro cs
  induction cs with
  | nil =>
    intro i bbs i' bbs' hi h
    simp only [placementLoop, Except.ok.injEq, Prod.mk.injEq] at h
    simp [totalWeight, ← h.1, Nat.mod_eq_of_lt hi]
  | cons c cs ih =>
    intro i bbs i' bbs' hi h
    by_cases ha : c.isAlpha
    · simp only [placementLoop, ha, if_true] at h
      cases hpi : pieceIndex c with
      | none => rw [hpi] at h; simp at h
      | some p =>
        rw [hpi] at h
        have := ih _ _ _ _ (Nat.mod_lt _ (by norm_num)) h
        rw [this, Nat.mod_add_mod]
        simp only [totalWeight, List.map_cons, List.foldr_cons, squareWeight, ha, if_true]
        congr 1
        omega
    · by_cases hd : c.isDigit
      · simp only [placementLoop, ha, if_false, hd, if_true, Bool.false_eq_true] at h
        have := ih _ _ _ _ (Nat.mod_lt _ (by norm_num)) h
        rw [this, Nat.mod_add_mod]
        simp only [totalWeight, List.map_cons, List.foldr_cons, squareWeight, ha,
          Bool.false_eq_true, if_false]
        congr 1
        omega
      · simp [placementLoop, ha, hd] at h

/-- When `parse_piece_placement` accepts a field, that field has
exactly 8 ranks and total square weight 64 (mod the wrapping `u8`
counter); per-rank weights are not constrained. -/
theorem parse_piece_placement_ok_shape (cs : List Char) (bbs : List (List Nat))
    (h : parse_piece_placement cs = Except.ok bbs) :
    (ranksOf cs).length = 8 ∧ totalWeight (ranksOf cs).flatten % 256 = 64 := by
  unfold parse_piece_placement at h
  by_cases hl : (ranksOf cs).length = 8
  · refine ⟨hl, ?_⟩
    rw [if_neg (by simp [hl])] at h
    cases hloop : placementLoop (ranksOf cs).flatten 0
        [[0, 0, 0, 0, 0, 0], [0, 0, 0, 0, 0, 0]] with
    | error e => rw [hloop] at h; simp at h
    | ok pair =>
      obtain ⟨i, bbs2⟩ := pair
      rw [hloop] at h
      by_cases hi : i = 64
      · have hcount := placementLoop_ok_count _ 0 _ _ _ (by norm_num) hloop
        simp only [Nat.zero_add] at hcount
        omega
      · simp [hi] at h
  · rw [if_pos (by simp [hl])] at h
    simp at h

/-! ## Helper lemmas: castling rights -/

/-- Attained `CastleRights` values as a function of the substring
tests, for any accepted castling-rights field: `Both` is assigned to a
color exactly when that color's two letters occur adjacently in the
order king-then-queen. -/
theorem parse_castling_rights_both_iff (cs : List Char) (w b : CastleRights)
    (h : parse_castling_rights cs = Except.ok [w, b]) :
    (w = CastleRights.Both ↔ isSubstrOf ['K', 'Q'] cs = true) ∧
    (b = CastleRights.Both ↔ isSubstrOf ['k', 'q'] cs = true) := by
  unfold parse_castling_rights at h
  by_cases hg : (cs.all fun c => (['K', 'Q', 'k', 'q', '-']).contains c) = true
  · rw [hg] at h
    simp only [Bool.not_true, Bool.false_eq_true, if_false] at h
    by_cases hdash : cs = ['-']
    · rw [if_pos hdash] at h
      simp only [Except.ok.injEq, List.cons.injEq, and_true] at h
      obtain ⟨hw, hb⟩ := h
      subst hdash
      rw [← hw, ← hb]
      exact ⟨by decide, by decide⟩
    · rw [if_neg hdash] at h
      simp only [Except.ok.injEq, List.cons.injEq, and_true] at h
      obtain ⟨hw, hb⟩ := h
      refine ⟨?_, ?_⟩
      · rw [← hw]
        by_cases hKQ : isSubstrOf ['K', 'Q'] cs = true
        · simp [hKQ]
        · simp only [Bool.not_eq_true] at hKQ
          rw [hKQ]
          simp only [Bool.false_eq_true, if_false]
          constructor
          · intro hc
            split at hc
            · exact absurd hc (by decide)
            · split at hc
              · exact absurd hc (by decide)
              · exact absurd hc (by decide)
          · intro hc
            simp at hc
      · rw [← hb]
        by_cases hkq : isSubstrOf ['k', 'q'] cs = true
        · simp [hkq]
        · simp only [Bool.not_eq_true] at hkq
          rw [hkq]
          simp only [Bool.false_eq_true, if_false]
          constructor
          · intro hc
            split at hc
            · exact absurd hc (by decide)
            · split at hc
              · exact absurd hc (by decide)
              · exact absurd hc (by decide)
          · intro hc
            simp at hc
  · simp only [Bool.not_eq_true] at hg
    rw [hg] at h
    simp at h

/-! ## Claim theorems -/

/-- Claim C1: for every line position `p < 8` and occupancy byte
`o < 256`, `compute_first_rank_moves p o` is the union of the two
truncated rays — the bits strictly below `p` cut to stop at and include
the nearest set bit of `o` below `p`, and symmetrically above — and in
particular for `p = 3`, `o = 0b00100100` the result (52 = bits 2, 4, 5)
includes bits 2 and 5 and no bit beyond them on either side. -/
theorem claim_C1_sliding_truncated_rays :
    (∀ p, p < 8 → ∀ o, o < 256 →
      compute_first_rank_moves p o =
        Except.ok (truncatedBelowRay p o ||| truncatedAboveRay p o)) ∧
    compute_first_rank_moves 3 36 = Except.ok 52 ∧
    Nat.testBit 52 2 = true ∧ Nat.testBit 52 5 = true ∧
    Nat.testBit 52 0 = false ∧ Nat.testBit 52 1 = false ∧
    Nat.testBit 52 6 = false ∧ Nat.testBit 52 7 = false := by
  refine ⟨by decide, by decide, by decide, by decide, by decide, by decide,
    by decide, by decide⟩

/-- Witness for C1 at the concrete input `p = 3`, `o = 0b00100100`. -/
theorem claim_C1_witness :
    compute_first_rank_moves 3 36 =
      Except.ok (truncatedBelowRay 3 36 ||| truncatedAboveRay 3 36) :=
  claim_C1_sliding_truncated_rays.1 3 (by decide) 36 (by decide)

/-- Claim C2 (code bug): the king table entry for a1 (square 0) is
actually `0x180` = \x7bh1, a2\x7d, not the claimed `0x302` =
\x7bb1, a2, b2\x7d: `compute_king_moves` masks its lateral offsets with
`FILE_MASKS[A]`/`FILE_MASKS[H]` instead of their complements (compare
`compute_knight_moves`, which negates the masks), so the west offsets
of an a-file king wrap to the h-file and every b1/b2-style move is
suppressed. -/
theorem claim_C2_king_a1_actual :
    compute_king_moves 0 = 0x180 ∧ compute_king_moves 0 ≠ 0x302 := by
  exact ⟨by decide, by decide⟩

/-- Claim C3 (code bug): the king table entry for a1 has popcount 2,
outside the claimed set \x7b3, 5, 8\x7d; the knight half of the claim
does hold — every knight entry's popcount lies in \x7b2, 3, 4, 6, 8\x7d. -/
theorem claim_C3_leaper_popcounts :
    popcount (compute_king_moves 0) = 2 ∧
    ([3, 5, 8].contains (popcount (compute_king_moves 0))) = false ∧
    ((List.range 64).all fun s =>
      [2, 3, 4, 6, 8].contains (popcount (compute_knight_moves s))) = true := by
  exact ⟨by decide, by decide, by decide⟩

/-- Counterexample to claim C4 as stated: the placement field
`rnbqkbnr/pppppppp/8/8/8/7/9/PPPPPPPP`, whose ranks `7` and `9` have
digit sums 7 and 9 rather than 8, is accepted by
`parse_piece_placement` because the total over all ranks is 64. -/
theorem claim_C4_counterexample :
    exceptIsOk (parse_piece_placement placementRank79) = true := by decide

/-- Claim C4 as amended: `parse_piece_placement` accepts a field only
when it has exactly 8 `/`-separated ranks, every character is a
recognized piece letter or a digit, and the digits-plus-letters total
over ALL ranks is 64; it does not check each rank's sum individually
(a rank summing to 7 or 9 passes when the total is 64, while a total
of 61 is rejected). -/
theorem claim_C4_total_count_only :
    (∀ cs bbs, parse_piece_placement cs = Except.ok bbs →
      (ranksOf cs).length = 8 ∧ totalWeight (ranksOf cs).flatten % 256 = 64) ∧
    parse_piece_placement placementBadPiece =
      Except.error (FenError.UnrecognizedPiece 'x') ∧
    exceptIsOk (parse_piece_placement placementRank79) = true ∧
    parse_piece_placement placementCount61 =
      Except.error (FenError.IncorrectSquareCount 61) := by
  exact ⟨parse_piece_placement_ok_shape, by decide, by decide, by decide⟩

/-- Witness for C4 at the standard starting placement. -/
theorem claim_C4_witness :
    (ranksOf startPlacement).length = 8 ∧
    totalWeight (ranksOf startPlacement).flatten % 256 = 64 :=
  claim_C4_total_count_only.1 startPlacement startBBs (by decide)

/-- Counterexample to claim C5 as stated: on the 61-square placement,
`parse_fen` does not return the square-count error value to its caller;
the inner `.unwrap()` of the sub-parser result panics with it. -/
theorem claim_C5_counterexample :
    parse_fen fenCount61 ≠ FenOutcome.err (FenError.IncorrectSquareCount 61) ∧
    parse_fen fenCount61 = FenOutcome.panicked (FenError.IncorrectSquareCount 61) := by
  exact ⟨by decide, by decide⟩

/-- Claim C5 as amended: every decode-time error in the taxonomy
carries the offending value and none is silently defaulted, but only
the field-count error is returned as an `Err` value by `parse_fen`
itself; each other error is returned by its sub-parser and then hit by
`parse_fen`'s `.unwrap()`, aborting with that error (still citing the
offending value, e.g. 61) instead of reaching `parse_fen`'s caller as
a value. -/
theorem claim_C5_error_surfacing :
    parse_fen fenOneField = FenOutcome.err (FenError.InvalidFields 1) ∧
    parse_fen fenSevenRanks = FenOutcome.panicked (FenError.IncorrectRankCount 7) ∧
    parse_fen fenBadPiece = FenOutcome.panicked (FenError.UnrecognizedPiece 'x') ∧
    parse_fen fenBadSquare = FenOutcome.panicked (FenError.UnrecognizedSquare '+') ∧
    parse_fen fenCount61 = FenOutcome.panicked (FenError.IncorrectSquareCount 61) ∧
    parse_fen fenBadColor = FenOutcome.panicked (FenError.UnrecognizedActiveColor ['Y']) ∧
    parse_fen fenBadCastling =
      FenOutcome.panicked (FenError.UnrecognizedCastlingRights ['K', 'j', 'k', 'q']) ∧
    parse_fen fenBadHalfmoves = FenOutcome.panicked (FenError.InvalidMoveField ['-', '1']) ∧
    parse_fen fenBadFullmoves =
      FenOutcome.panicked (FenError.InvalidMoveField ['6', '5', '5', '7', '5']) := by
  refine ⟨by decide, by decide, by decide, by decide, by decide, by decide,
    by decide, by decide, by decide⟩

/-- Counterexample to claim C6 as stated: at the concrete input 0 both
bitscans fail with the `InvalidInteger` condition — the error type's
only variant; no `InvalidOperand` condition exists in the code. -/
theorem claim_C6_counterexample :
    bitscan_forward 0 = Except.error (BitscanError.InvalidInteger 0) ∧
    bitscan_reverse 0 = Except.error (BitscanError.InvalidInteger 0) := by
  exact ⟨by decide, by decide⟩

/-- Claim C6 as amended: `bitscan_forward` and `bitscan_reverse` fail —
with the `InvalidInteger` condition, the name the code actually uses —
exactly when the operand is 0; on every nonzero 64-bit value they
return the least and most significant set-bit index respectively, and
`bitscan_forward 0x8000000000000000 = 63`. -/
theorem claim_C6_bitscan_contract (x : Nat) (hx : x < 2 ^ 64) :
    (x = 0 → bitscan_forward x = Except.error (BitscanError.InvalidInteger 0) ∧
      bitscan_reverse x = Except.error (BitscanError.InvalidInteger 0)) ∧
    (0 < x → ∃ k, bitscan_forward x = Except.ok k ∧ x.testBit k = true ∧
      ∀ j, j < k → x.testBit j = false) ∧
    (0 < x → ∃ k, bitscan_reverse x = Except.ok k ∧ x.testBit k = true ∧
      ∀ j, k < j → x.testBit j = false) ∧
    bitscan_forward 0x8000000000000000 = Except.ok 63 := by
  refine ⟨?_, ?_, ?_, by decide⟩
  · intro h0
    subst h0
    exact ⟨by decide, by decide⟩
  · intro h0
    exact bitscan_forward_lsb x h0 hx
  · intro h0
    exact ⟨Nat.log2 x, bitscan_reverse_eq_log2 x h0 hx,
      (log2_testBit x h0).1, (log2_testBit x h0).2⟩

/-- Witness for C6 at the concrete input `0x8000000000000000`. -/
theorem claim_C6_witness :
    (∃ k, bitscan_forward 0x8000000000000000 = Except.ok k ∧
      Nat.testBit 0x8000000000000000 k = true ∧
      ∀ j, j < k → Nat.testBit 0x8000000000000000 j = false) ∧
    (∃ k, bitscan_reverse 0x8000000000000000 = Except.ok k ∧
      Nat.testBit 0x8000000000000000 k = true ∧
      ∀ j, k < j → Nat.testBit 0x8000000000000000 j = false) :=
  ⟨(claim_C6_bitscan_contract 0x8000000000000000 (by decide)).2.1 (by decide),
   (claim_C6_bitscan_contract 0x8000000000000000 (by decide)).2.2.1 (by decide)⟩

/-- Claim C7: the sliding-table precomputation is total — for every
line position and occupancy byte the computation succeeds, so each
bitscan (and its unwrap) runs only on a nonzero blocker set and the
error branch is unreachable. -/
theorem claim_C7_no_error_path :
    ∀ p, p < 8 → ∀ o, o < 256 →
      exceptIsOk (compute_first_rank_moves p o) = true := by decide

/-- Witness for C7 at the concrete input `p = 3`, `o = 36`. -/
theorem claim_C7_witness : exceptIsOk (compute_first_rank_moves 3 36) = true :=
  claim_C7_no_error_path 3 (by decide) 36 (by decide)

/-- Claim C8: for every square, the pawn quiet table holds the single
forward push (zero when off-board) plus the double push exactly from
the color's starting rank, and the pawn capture table holds exactly the
forward diagonals with A/H-file wraparound suppressed. -/
theorem claim_C8_pawn_tables :
    ∀ s, s < 64 →
      compute_pawn_quiet_moves s Color.White = pawnQuietSpec Color.White s ∧
      compute_pawn_quiet_moves s Color.Black = pawnQuietSpec Color.Black s ∧
      compute_pawn_attacking_moves s Color.White = pawnCaptureSpec Color.White s ∧
      compute_pawn_attacking_moves s Color.Black = pawnCaptureSpec Color.Black s := by
  decide

/-- Witness for C8 at the concrete square a2 (8). -/
theorem claim_C8_witness :
    compute_pawn_quiet_moves 8 Color.White = pawnQuietSpec Color.White 8 ∧
    compute_pawn_quiet_moves 8 Color.Black = pawnQuietSpec Color.Black 8 ∧
    compute_pawn_attacking_moves 8 Color.White = pawnCaptureSpec Color.White 8 ∧
    compute_pawn_attacking_moves 8 Color.Black = pawnCaptureSpec Color.Black 8 :=
  claim_C8_pawn_tables 8 (by decide)

/-- Claim C9: decoding the standard starting placement yields the 12
bitboards whose union is the 32-square starting occupancy, with the
standard per-piece popcounts, pairwise disjoint. -/
theorem claim_C9_start_position :
    parse_piece_placement startPlacement = Except.ok startBBs ∧
    orAll startBBs.flatten = 0xFFFF00000000FFFF ∧
    startBBs.flatten.map popcount = [8, 2, 2, 2, 1, 1, 8, 2, 2, 2, 1, 1] ∧
    pairwiseDisjoint startBBs.flatten = true := by
  exact ⟨by decide, by decide, by decide, by decide⟩

/-- Claim C10: castling-rights parsing assigns a color `Both` exactly
when that color's letters occur as a contiguous substring in the order
king-then-queen; the accepted input `QKkq` yields Kingside-only for
White and Both for Black. -/
theorem claim_C10_castling_order :
    parse_castling_rights ['Q', 'K', 'k', 'q'] =
      Except.ok [CastleRights.Kingside, CastleRights.Both] ∧
    (∀ cs w b, parse_castling_rights cs = Except.ok [w, b] →
      (w = CastleRights.Both ↔ isSubstrOf ['K', 'Q'] cs = true) ∧
      (b = CastleRights.Both ↔ isSubstrOf ['k', 'q'] cs = true)) :=
  ⟨by decide, parse_castling_rights_both_iff⟩

/-- Witness for C10 at the concrete input `QKkq`. -/
theorem claim_C10_witness :
    (CastleRights.Kingside = CastleRights.Both ↔
      isSubstrOf ['K', 'Q'] ['Q', 'K', 'k', 'q'] = true) ∧
    (CastleRights.Both = CastleRights.Both ↔
      isSubstrOf ['k', 'q'] ['Q', 'K', 'k', 'q'] = true) :=
  claim_C10_castling_order.2 ['Q', 'K', 'k', 'q'] CastleRights.Kingside
    CastleRights.Both (by decide)

end Chess
